import Mathlib

set_option maxRecDepth 100000
set_option maxHeartbeats 1000000

/-!
Verification of the `multiplets` package (src/multiplets.py) against its
natural-language specification.

The development is a shallow embedding of the Python source:

* dataframes become Lean lists of explicit row structures;
* polars operations (cross join, filter, inner join, unpivot + group-by,
  sort) become the corresponding list operations;
* the two exact-optimization oracles (CP-SAT and the linear-sum-assignment
  solver) are external collaborators: their answers are modelled as
  parameters (a 0/1 selection vector, resp. a mate function), constrained
  by the feasibility/optimality conditions the oracles guarantee;
* Python numbers (exact ints and floats) are modelled by `Frac`, an
  unnormalized fraction type whose operations are structurally recursive and
  therefore evaluate inside the kernel; `Frac.trunc` is the truncation
  toward zero performed by Python `int(x)` and by the polars cast
  `Float64 → Int64`;
* fallible code returns `Except MErr`.
-/

/-- Exact numeric values (Python ints and floats) as unnormalized fractions.
`d` is kept positive by every constructor below, and no operation normalizes,
so all arithmetic is plain `Int`/`Nat` arithmetic and reduces in the kernel.
Integer-valued data (every value appearing in the concrete scenarios) keeps
denominator 1 throughout, so equality of computed tables can be read off
literally. -/
structure Frac where
  n : ℤ
  d : ℕ
deriving DecidableEq

instance (k : ℕ) : OfNat Frac k := ⟨⟨(k : ℤ), 1⟩⟩

/-- Embed an integer. -/
def Frac.ofInt (i : ℤ) : Frac := ⟨i, 1⟩

/-- Addition of fractions. -/
def Frac.add (a b : Frac) : Frac := ⟨a.n * b.d + b.n * a.d, a.d * b.d⟩

/-- Subtraction of fractions. -/
def Frac.sub (a b : Frac) : Frac := ⟨a.n * b.d - b.n * a.d, a.d * b.d⟩

/-- Multiplication of fractions. -/
def Frac.mul (a b : Frac) : Frac := ⟨a.n * b.n, a.d * b.d⟩

/-- Division of fractions (the divisor is nonzero wherever the source
divides: it only computes `penalty/2`). -/
def Frac.div (a b : Frac) : Frac :=
  if b.n < 0 then ⟨-(a.n * b.d), a.d * (-b.n).toNat⟩ else ⟨a.n * b.d, a.d * b.n.toNat⟩

/-- Absolute value. -/
def Frac.abs (a : Frac) : Frac := ⟨|a.n|, a.d⟩

/-- Order on fractions (valid because denominators are positive). -/
def Frac.le (a b : Frac) : Bool := decide (a.n * b.d ≤ b.n * a.d)

/-- Strict order on fractions. -/
def Frac.lt (a b : Frac) : Bool := decide (a.n * b.d < b.n * a.d)

/-- Truncation toward zero: Python `int(x)` and the polars `Float64 → Int64`
cast (`Int.tdiv` truncates toward zero and `d` is positive). -/
def Frac.trunc (a : Frac) : ℤ := a.n.tdiv a.d

/-- Sum of a list of values (`sum_horizontal`, the default hyperedge-weight
aggregator). -/
def sum_horizontal (l : List Frac) : Frac := l.foldl Frac.add 0

/-- Maximum of a nonempty list of values (`max_horizontal`, the alternative
aggregator used in the examples). -/
def max_horizontal : List Frac → Frac
  | [] => 0
  | a :: t => t.foldl (fun x y => bif Frac.le x y then y else x) a

/-- Maximum of a column, `None` on an empty column: `df.select(w).max().item()`. -/
def colMax : List Frac → Option Frac
  | [] => none
  | a :: t => some (t.foldl (fun x y => bif Frac.le x y then y else x) a)

/-- Errors and exceptions surfaced by the package.  `configError` stands for
`multipletsError` raised in `__init__`, `noSolution` for
`multipletsErrorNoSolution`; `nameError` and `typeError` model the Python
interpreter exceptions `NameError` and `TypeError` that the source can hit. -/
inductive MErr where
  | configError (text : String)
  | noSolution (text : String)
  | nameError (text : String)
  | typeError (text : String)
deriving DecidableEq

/-- Insert `a` into `l`, keeping every element `b` with `le b a` before `a`
(stable insertion). -/
def insertBy (le : α → α → Bool) (a : α) : List α → List α
  | [] => [a]
  | b :: t => bif le b a then b :: insertBy le a t else a :: b :: t

/-- Insertion sort.  Models the deterministic ascending sorts issued by the
source (`DataFrame.sort`, Python `sorted`); all sort keys the source sorts by
are distinct, so any correct ascending sort returns the same list. -/
def sortBy (le : α → α → Bool) : List α → List α
  | [] => []
  | a :: t => insertBy le a (sortBy le t)

/-- Ascending lexicographic comparison of identifier tuples, the ordering of
`hyperedges.sort([id_0, ..., id_{k-1}])`. -/
def lexLe : List ℤ → List ℤ → Bool
  | [], _ => true
  | _ :: _, [] => false
  | a :: as, b :: bs => if a < b then true else if b < a then false else lexLe as bs

/-- Comparator for group keys (each key is one group value, `none` = null). -/
def optLe (a b : Option ℤ) : Bool :=
  decide (a.getD 0 ≤ b.getD 0)

/-- `part_keys` computation of `multiplets.__init__` (lines 93-98): the
distinct group values, sorted ascending, with the null key (if present) moved
to the last position. -/
def partKeys (gs : List (Option ℤ)) : List (Option ℤ) :=
  let t := gs.dedup
  if none ∈ t then sortBy optLe (t.erase none) ++ [none] else sortBy optLe t

/-- Number of parts obtained when partitioning by the group column: the number
of distinct group values (nulls included). -/
def numGroups (gs : List (Option ℤ)) : ℕ := gs.dedup.length

/-- The entity table handed to the constructor: its column names and the
values of the identifier and group columns (each of table height; the value
lists are meaningful only when the named column is present). -/
structure EntityTable where
  cols : List String
  idvals : List (Option ℤ)
  gvals : List (Option ℤ)

/-- `multiplets.__init__` (lines 78-107): the five validation steps, in source
order, ending with the ordered group-key list of the session.  An `error`
result models the constructor raising before `init_OK` is set, so no edge or
matching operation can run on the session. -/
def initSession (df : EntityTable) (idc gc : String) (check_too_big : Bool) :
    Except MErr (List (Option ℤ)) :=
  if df.idvals.length = 0 then
    .error (.configError "Dataframe has zero rows")
  else if ¬ (idc ∈ df.cols) then
    .error (.configError "Dataframe does not contain the id column")
  else if ¬ (gc ∈ df.cols) then
    .error (.configError "Dataframe does not contain the group column")
  else if df.idvals.length ≠ ((df.idvals.dedup).filter (fun x => x.isSome)).length then
    .error (.configError "Values in the id column are not nonempty and unique")
  else
    let keys := partKeys df.gvals
    if keys.length = 1 then
      .error (.configError "Partition by the group column has only one part")
    else if keys.length > 10 ∧ check_too_big then
      .error (.configError "Partition by the group column has too many parts")
    else .ok keys

/-- Whether an `Except` is an error. -/
def isError : Except ε α → Bool
  | .error _ => true
  | .ok _ => false

instance [DecidableEq ε] [DecidableEq α] : DecidableEq (Except ε α) := fun x y =>
  match x, y with
  | .ok a, .ok b => decidable_of_iff (a = b) (by simp)
  | .ok _, .error _ => .isFalse (by simp)
  | .error _, .ok _ => .isFalse (by simp)
  | .error a, .error b => decidable_of_iff (a = b) (by simp)

/-- A vertex: one entity row after partitioning (`include_key=False` drops the
group column).  `attrs` holds the remaining non-id columns in a fixed order
(the concrete scenarios have a single `value` column). -/
structure Vertex where
  id : ℤ
  attrs : List Frac
deriving DecidableEq

/-- A session after a successful `__init__`: the vertex tables of the groups,
listed in `part_keys` order.  When there are exactly two groups the
constructor also gives each vertex a dense 0-based row index inside its group
(`with_row_index`, lines 103-105); in this embedding that index is the
position of the vertex in its group list. -/
structure Session where
  groups : List (List Vertex)
deriving DecidableEq

/-- One raw entity row (identifier, group value, one attribute column) used to
build concrete sessions. -/
structure RawRow where
  id : ℤ
  grp : ℤ
  value : Frac
deriving DecidableEq

/-- Build a session from raw rows: `partition_by(group)` keyed and ordered by
`partKeys`, keeping within-group row order (polars `partition_by` is
order-preserving). -/
def buildSession (rows : List RawRow) : Session :=
  ⟨(partKeys (rows.map (fun r => some r.grp))).map (fun key =>
      (rows.filter (fun r => some r.grp == key)).map (fun r => ⟨r.id, [r.value]⟩))⟩

/-- The `weight` argument of `init_edges` as dispatched by `_col`
(lines 108-130): a polars expression over the suffixed columns of the
cross-joined pair (modelled as a function of the two vertices; a plain column
name is a special case of such a function), a numeric literal, or an
unsupported value, which `_col` replaces by literal 0 (with a once-per-session
warning, not modelled). -/
inductive WeightArg where
  | expr (f : Vertex → Vertex → Frac)
  | lit (x : Frac)
  | unsupported

/-- `_col` evaluation of the weight argument. -/
def colEval : WeightArg → (Vertex → Vertex → Frac)
  | .expr f => f
  | .lit x => fun _ _ => x
  | .unsupported => fun _ _ => 0

/-- The `filter` argument of `init_edges` (lines 220-223): absent (accept
all), a number `x` (meaning `_weight ≤ x`), or an expression over the combined
row, which may also read the `_weight` column. -/
inductive FilterArg where
  | noFilter
  | num (x : Frac)
  | cond (p : Frac → Vertex → Vertex → Bool)

/-- Filter evaluation (first argument is the `_weight` value of the row). -/
def filterEval : FilterArg → (Frac → Vertex → Vertex → Bool)
  | .noFilter => fun _ _ _ => true
  | .num x => fun w _ _ => Frac.le w x
  | .cond p => p

/-- One row of the pairwise edge table `edges[i, j]` (lines 227-238): the row
indices of the two vertices inside their groups (selected only when there are
exactly two groups), their identifiers, and the pair weight. -/
structure EdgeRow where
  ridA : ℕ
  ridB : ℕ
  idA : ℤ
  idB : ℤ
  w : Frac
deriving DecidableEq

/-- Pairwise edge table for groups `i < j`: cross join of the two vertex
tables (left-major order), weight evaluation, filter. -/
def edgesFor (gA gB : List Vertex) (wf : Vertex → Vertex → Frac)
    (fp : Frac → Vertex → Vertex → Bool) : List EdgeRow :=
  (gA.enum.flatMap (fun pa => gB.enum.map (fun pb => (pa, pb)))).filterMap
    (fun q =>
      let w := wf q.1.2 q.2.2
      if fp w q.1.2 q.2.2 then some ⟨q.1.1, q.2.1, q.1.2.id, q.2.2.id, w⟩ else none)

/-- A partial hyperedge row during the progressive join (lines 239-247):
row indices (only when there are two groups), the identifier columns fixed so
far (`id_0 … id_m` in position order), and the pairwise weight columns
accumulated so far (in pair order). -/
structure PRow where
  rids : List ℕ
  ids : List ℤ
  ws : List Frac
deriving DecidableEq

/-- The unordered group pairs `(i, j)`, `i < j`, in the nested-loop order of
the source. -/
def pairList (k : ℕ) : List (ℕ × ℕ) :=
  (List.range k).flatMap (fun i =>
    (List.range k).filterMap (fun j => if i < j then some (i, j) else none))

/-- The first pairwise table starts the join (`first_join`, lines 242-244). -/
def initAcc (k2 : Bool) (e : List EdgeRow) : List PRow :=
  e.map (fun ed => ⟨bif k2 then [ed.ridA, ed.ridB] else [], [ed.idA, ed.idB], [ed.w]⟩)

/-- One step of the progressive inner join (lines 245-247), joining the
accumulated table with `edges[i, j]` on `[id_i, id_j][:i+1]`: for `i = 0` the
key is `id_0` alone and the join appends the new column `id_j`; for `i ≥ 1`
both identifier columns already exist and the join is a pure intersection.
Row order is left-major (for each accumulated row, the matching edge rows in
edge-table order). -/
def joinStep (acc : List PRow) (e : List EdgeRow) (i j : ℕ) : List PRow :=
  if i = 0 then
    acc.flatMap (fun r =>
      (e.filter (fun ed => ed.idA == r.ids.getD 0 0)).map
        (fun ed => ⟨r.rids, r.ids ++ [ed.idB], r.ws ++ [ed.w]⟩))
  else
    acc.flatMap (fun r =>
      (e.filter (fun ed => ed.idA == r.ids.getD i 0 && ed.idB == r.ids.getD j 0)).map
        (fun ed => ⟨r.rids, r.ids, r.ws ++ [ed.w]⟩))

/-- One row of the final hyperedge table: row-index columns (two-group case
only), one identifier per group, and the aggregated weight. -/
structure Row where
  rids : List ℕ
  ids : List ℤ
  w : Frac
deriving DecidableEq

/-- `init_edges` (lines 131-256): pairwise edge tables for all group pairs,
progressive inner join into full tuples, aggregation of the pairwise weights
by `agg_horizontal`, and the final deterministic sort by the identifier
columns. -/
def init_edges (s : Session) (weight : WeightArg) (filter : FilterArg)
    (agg_horizontal : List Frac → Frac) : List Row :=
  let k := s.groups.length
  let wf := colEval weight
  let fp := filterEval filter
  let E := fun (i j : ℕ) => edgesFor (s.groups.getD i []) (s.groups.getD j []) wf fp
  match pairList k with
  | [] => []
  | p :: rest =>
    let joined := rest.foldl (fun acc q => joinStep acc (E q.1 q.2) q.1 q.2)
      (initAcc (k == 2) (E p.1 p.2))
    sortBy (fun a b => lexLe a.ids b.ids)
      (joined.map (fun r => ⟨r.rids, r.ids, agg_horizontal r.ws⟩))

/-- Weight expression of the worked examples: `(pl.col(value_A) - pl.col(value_B)).abs()`. -/
def absDiff : WeightArg :=
  .expr (fun a b => ((a.attrs.getD 0 0).sub (b.attrs.getD 0 0)).abs)

/-- The preamble of `find_multiplets` (lines 394-397).  If the weight column
is missing, line 395 evaluates `pl.lit(0)` — but the module imports polars as
`PL` (line 1) and never defines `pl`, so the interpreter raises `NameError`
instead of zero-filling.  Otherwise, a missing `penalty` defaults to
`int(df.select(weight).max().item() + 3)`; on a zero-row table `max().item()`
is `None` and `None + 3` raises `TypeError`. -/
def find_multiplets_pre (cols : List String) (weight : String) (wvals : List Frac)
    (penalty? : Option Frac) : Except MErr Frac :=
  if ¬ (weight ∈ cols) then
    .error (.nameError "name pl is not defined")
  else
    match penalty? with
    | some p => .ok p
    | none =>
      match colMax wvals with
      | none => .error (.typeError "unsupported operand types for addition: NoneType and int")
      | some m => .ok (Frac.ofInt ((m.add 3).trunc))

/-- The claimed objective constant of the specification for the CP-SAT path:
maximum observed hyperedge weight times the size of the smallest group,
plus 1.  Modelled from the spec wording, for comparison with the constant the
code actually computes. -/
def specClaimedPenalty (maxw : Frac) (smallestGroup : ℕ) : Frac :=
  (maxw.mul ⟨(smallestGroup : ℤ), 1⟩).add 1

/-- The 0/1 selection returned by the CP-SAT oracle, read back row by row:
`concat(df[i] for i in range(len(x)) if value(x[i]))` (lines 425-431; when no
variable is set the loop leaves `df.head(0)`, i.e. the same empty row list,
plus a warning). -/
def cpsatSelected (df : List Row) (sel : ℕ → Bool) : List Row :=
  ((df.enum.filter (fun p => sel p.1)).map Prod.snd)

/-- The mutual-exclusion constraints of the CP-SAT model (lines 406-408):
`unpivot` lists every (position, id) occurrence of every row, `group_by(id)`
pools the positions of one identifier value across all id columns, and for
each identifier the sum of the selection variables over its occurrence list
is at most 1.  `FeasibleSel` says a 0/1 assignment satisfies every one of
these constraints. -/
abbrev FeasibleSel (df : List Row) (sel : ℕ → Bool) : Prop :=
  ∀ v ∈ df.flatMap (fun r => r.ids),
    ((df.enum.map (fun p => p.2.ids.count v * (bif sel p.1 then 1 else 0))).sum : ℕ) ≤ 1

/-- Objective coefficients of the CP-SAT model (line 409):
`maximize Σ (penalty - w_i) * x_i`. -/
def cpsatObjectiveCoeff (df : List Row) (penalty : Frac) : List Frac :=
  df.map (fun r => penalty.sub r.w)

/-- The CP-SAT branch of `find_multiplets` (lines 403-436), with the solver
abstracted: `statusFeasible` tells whether the returned status is in
`[OPTIMAL, FEASIBLE]`, and `sel` is the returned variable assignment.  The
result is the pair (value of `self.multiplets` after the call — `none` when
the call raised before assigning it — , returned value or raised error). -/
def cpsatRun (df : List Row) (cols : List String) (weight : String)
    (penalty? : Option Frac) (statusFeasible : Bool) (sel : ℕ → Bool) :
    Option (List Row) × Except MErr (List Row) :=
  match find_multiplets_pre cols weight (df.map (fun r => r.w)) penalty? with
  | .error e => (none, .error e)
  | .ok _ =>
    if statusFeasible then
      (some (cpsatSelected df sel), .ok (cpsatSelected df sel))
    else
      (some [], .error (.noSolution "No solution found"))

/-- One row of the two-group hyperedge table as consumed by the LSA branch:
columns `_rowid_0`, `_rowid_1`, `id_0`, `id_1` and the weight. -/
structure PairRow where
  rid0 : ℕ
  rid1 : ℕ
  id0 : ℤ
  id1 : ℤ
  w : Frac
deriving DecidableEq

/-- Read the two-group hyperedge table (as produced by `init_edges`) in the
shape the LSA branch consumes. -/
def toPairRows (l : List Row) : List PairRow :=
  l.map (fun r => ⟨r.rids.getD 0 0, r.rids.getD 1 0, r.ids.getD 0 0, r.ids.getD 1 0, r.w⟩)

/-- One row of the augmented assignment table built by the LSA branch:
`_rowid_0`, `_rowid_1`, the identifier pair (`none` on the synthetic padding
and dummy rows, whose id columns are null after the `diagonal_relaxed`
concat), and the weight column. -/
structure ArcRow where
  rid0 : ℕ
  rid1 : ℕ
  ids : Option (ℤ × ℤ)
  w : Frac

/-- `rangedf(a0, b0, a1, b1, w)` (lines 444-447): the cross join
`range(a0, b0) × range(a1, b1)` with constant weight `w` (left-major order,
id columns null). -/
def rangedf (a0 b0 a1 b1 : ℕ) (w : Frac) : List ArcRow :=
  (List.range' a0 (b0 - a0)).flatMap (fun i =>
    (List.range' a1 (b1 - a1)).map (fun j => ⟨i, j, none, w⟩))

/-- The augmented arc table of the LSA branch (lines 448-458): the real
candidate pairs, then — depending on which group is smaller — a zero-cost
padding block from the extra dummy rows to the real rows of the larger side,
then two `penalty/2` blocks connecting every real row to every dummy row of
the opposite side, then the zero-cost dummy self-pairing block. -/
def buildArcs (df : List PairRow) (h0 h1 : ℕ) (penalty : Frac) : List ArcRow :=
  (df.map (fun r => ⟨r.rid0, r.rid1, some (r.id0, r.id1), r.w⟩)) ++
  (if h0 < h1 then rangedf h0 h1 0 h1 0
   else if h1 < h0 then rangedf 0 h0 h1 h0 0
   else []) ++
  rangedf (max h0 h1) (h0 + h1) 0 h1 (penalty.div 2) ++
  rangedf 0 h0 (max h0 h1) (h0 + h1) (penalty.div 2) ++
  (List.range' (max h0 h1) ((h0 + h1) - max h0 h1)).map (fun i => ⟨i, i, none, 0⟩)

/-- The integer-cost arc list handed to the assignment oracle (lines
463-467): `add_arcs_with_cost(rowid_0, rowid_1, (weight * multiplier).cast(Int64))`. -/
def solverArcs (arcs : List ArcRow) (mult : Frac) : List (ℕ × ℕ × ℤ) :=
  arcs.map (fun r => (r.rid0, r.rid1, (r.w.mul mult).trunc))

/-- Cost of assigning left node `i` to right node `j`: the cost of the arc
`(i, j)` if one was added, `none` otherwise (the arc lists the source builds
have no duplicate `(i, j)` keys). -/
def costOf (sarcs : List (ℕ × ℕ × ℤ)) (i j : ℕ) : Option ℤ :=
  (sarcs.find? (fun a => a.1 == i && a.2.1 == j)).map (fun a => a.2.2)

/-- `mate` is a perfect matching of the `N`-node bipartite instance that only
uses added arcs: every left node below `N` gets a right node below `N`, on an
existing arc, injectively. -/
abbrev FeasibleMate (sarcs : List (ℕ × ℕ × ℤ)) (N : ℕ) (mate : ℕ → ℕ) : Prop :=
  (∀ i, i < N → mate i < N ∧ costOf sarcs i (mate i) ≠ none) ∧
  (∀ i, i < N → ∀ j, j < N → mate i = mate j → i = j)

/-- Total cost of a perfect matching. -/
def totalCost (sarcs : List (ℕ × ℕ × ℤ)) (N : ℕ) (mate : ℕ → ℕ) : ℤ :=
  ((List.range N).map (fun i => (costOf sarcs i (mate i)).getD 0)).sum

/-- `mate` is a minimum-cost perfect matching: what
`SimpleLinearSumAssignment.solve` guarantees when it reports `OPTIMAL`. -/
def OptimalMate (sarcs : List (ℕ × ℕ × ℤ)) (N : ℕ) (mate : ℕ → ℕ) : Prop :=
  FeasibleMate sarcs N mate ∧
  ∀ g : ℕ → ℕ, FeasibleMate sarcs N g → totalCost sarcs N mate ≤ totalCost sarcs N g

/-- All lists of length `n` with entries below `m`: a concrete enumeration of
the candidate mate functions, used to make optimality over a 4-node instance
checkable by `decide`. -/
def allFuns : ℕ → ℕ → List (List ℕ)
  | 0, _ => [[]]
  | n + 1, m => (List.range m).flatMap (fun v => (allFuns n m).map (fun l => v :: l))

/-- Reading the solution back (lines 470-475): the frame
`(rowid_0 = i, rowid_1 = mate(i))` for `i in range(num_nodes)` is left-joined
against the augmented table on both row-index columns, rows whose id columns
are null (synthetic arcs) are dropped, and `id_0, id_1, weight` are kept. -/
def lsaExtract (arcs : List ArcRow) (N : ℕ) (mate : ℕ → ℕ) : List (ℤ × ℤ × Frac) :=
  (List.range N).flatMap (fun i =>
    (arcs.filter (fun r => r.rid0 == i && r.rid1 == mate i)).filterMap
      (fun r => r.ids.map (fun q => (q.1, q.2, r.w))))

/-- Status reported by the assignment oracle. -/
inductive LSAStatus where
  | optimal
  | infeasible
  | possibleOverflow
deriving DecidableEq

/-- The LSA branch of `find_multiplets` (lines 437-492) for a session with
group sizes `h0`, `h1`, with the assignment oracle abstracted into the
reported status and, on `optimal`, the returned `right_mate` function.
`num_nodes` is `h0 + h1` (both sides of the augmented instance use exactly
the node indices `0 … h0+h1-1`).  The result pairs the value of
`self.multiplets` after the call (`none` when the call raised before
assigning it) with the returned table or raised error. -/
def lsaRun (df : List PairRow) (cols : List String) (weight : String)
    (penalty? multiplier? : Option Frac) (h0 h1 : ℕ) (status : LSAStatus)
    (mate : ℕ → ℕ) :
    Option (List (ℤ × ℤ × Frac)) × Except MErr (List (ℤ × ℤ × Frac)) :=
  match find_multiplets_pre cols weight (df.map (fun r => r.w)) penalty? with
  | .error e => (none, .error e)
  | .ok penalty =>
    let arcs := buildArcs df h0 h1 penalty
    -- the oracle minimizes over the integer costs
    -- `solverArcs arcs (multiplier?.getD 1)` (default multiplier 1, line
    -- 441-442); theorems about the `optimal` case hypothesize that `mate`
    -- is a minimum-cost perfect matching for exactly these costs
    let _sarcs := solverArcs arcs (multiplier?.getD 1)
    match status with
    | .optimal =>
      (some (lsaExtract arcs (h0 + h1) mate), .ok (lsaExtract arcs (h0 + h1) mate))
    | .infeasible =>
      (some [], .error (.noSolution "No assignment is possible"))
    | .possibleOverflow =>
      (some [], .error (.noSolution "Some input costs are too large and may cause an integer overflow"))

/-- The two search strategies. -/
inductive Strategy where
  | CPSAT
  | LSA
deriving DecidableEq

/-- Strategy dispatch of `find_multiplets` (line 398): CP-SAT when forced or
when there are at least three groups, LSA otherwise. -/
def chooseStrategy (k : ℕ) (force_CPSAT : Bool) : Strategy :=
  if force_CPSAT ∨ 3 ≤ k then .CPSAT else .LSA

/-- The advisory warnings of `find_multiplets`: `force_CPSAT` ignored for
three or more groups (lines 399-400), `multiplier` ignored under CP-SAT
(lines 401-402), `max_time` ignored under LSA (lines 438-439). -/
structure Advisories where
  forceNoop : Bool
  multiplierIgnored : Bool
  maxTimeIgnored : Bool
deriving DecidableEq

/-- Which advisory warnings a call prints, per the branch structure of the
source. -/
def advisories (k : ℕ) (force_CPSAT : Bool) (multiplier? max_time? : Option Frac) :
    Advisories :=
  if force_CPSAT ∨ 3 ≤ k then
    ⟨force_CPSAT ∧ 3 ≤ k, multiplier?.isSome, false⟩
  else
    ⟨false, false, max_time?.isSome⟩

/-- No identifier value occurs in more than one row of a result table, over
all identifier positions. -/
def VertexDisjoint (rows : List Row) : Prop :=
  ∀ v : ℤ, (rows.filter (fun r => decide (v ∈ r.ids))).length ≤ 1

/-- Two-group version, for the `(id_0, id_1, weight)` triples the LSA branch
returns. -/
def VertexDisjoint₂ (rows : List (ℤ × ℤ × Frac)) : Prop :=
  ∀ v : ℤ, (rows.filter (fun r => r.1 == v || r.2.1 == v)).length ≤ 1

/-- The `(rowid_0, rowid_1)` keys of a two-group hyperedge table are distinct
(true of every table `init_edges` builds: the keys come from a cross join of
two indexed tables). -/
abbrev PairKeysNodup (df : List PairRow) : Prop :=
  (df.map (fun r => (r.rid0, r.rid1))).Nodup

/-- Within each side, the identifier determines the row index (true of every
table `init_edges` builds for a valid session: identifiers are unique, and
each row index names one vertex of its group). -/
abbrev IdDeterminesRid (df : List PairRow) : Prop :=
  ∀ r ∈ df, ∀ r2 ∈ df,
    (r.id0 = r2.id0 → r.rid0 = r2.rid0) ∧ (r.id1 = r2.id1 → r.rid1 = r2.rid1)

/-- No identifier appears on both sides (true for a valid session:
identifiers are globally unique and the two sides draw from disjoint
groups). -/
abbrev GroupsIdDisjoint (df : List PairRow) : Prop :=
  ∀ r ∈ df, ∀ r2 ∈ df, r.id0 ≠ r2.id1

/-- `mate` is injective on the node range (what a perfect matching
guarantees; this is the only part of feasibility the disjointness argument
needs). -/
abbrev MateInj (N : ℕ) (mate : ℕ → ℕ) : Prop :=
  ∀ i, i < N → ∀ j, j < N → mate i = mate j → i = j

/-- Column list of a two-group hyperedge table built by `init_edges`. -/
def hyperCols2 : List String := ["_rowid_0", "_rowid_1", "id_0", "id_1", "_weight"]

/-- Entities of the two-group specification scenario:
`D = {1: 10, 2: 20}`, `E = {3: 30, 4: 40}` (group label D modelled as 1, E
as 2). -/
def c2rows : List RawRow := [⟨1, 1, 10⟩, ⟨2, 1, 20⟩, ⟨3, 2, 30⟩, ⟨4, 2, 40⟩]

/-- Hyperedge table of the scenario: `init_edges(|value_A - value_B|, filter 20)`. -/
def c2pairs : List PairRow :=
  toPairRows (init_edges (buildSession c2rows) absDiff (.num 20) sum_horizontal)

/-- The augmented assignment table `find_multiplets()` builds for the
scenario (default penalty `int(20 + 3) = 23`). -/
def c2arcs : List ArcRow := buildArcs c2pairs 2 2 (Frac.ofInt 23)

/-- Integer costs handed to the assignment oracle (default multiplier 1). -/
def c2sarcs : List (ℕ × ℕ × ℤ) := solverArcs c2arcs 1

/-- One minimum-cost perfect matching of the scenario instance:
`0 → 2, 1 → 0, 2 → 1, 3 → 3` (cost `11 + 10 + 11 + 0 = 32`). -/
def c2mate0 : ℕ → ℕ := fun i => [2, 0, 1, 3].getD i 0

/-- Total weight of a result table. -/
def totalWeight (rows : List Row) : Frac := sum_horizontal (rows.map (fun r => r.w))

/-- Entities of an infeasible two-group scenario: `D = {1: 10}`,
`E = {3: 100}`; the filter `≤ 20` rejects the only cross-group pair, so the
hyperedge table is empty. -/
def c5rows : List RawRow := [⟨1, 1, 10⟩, ⟨3, 2, 100⟩]

/-- The (empty) hyperedge table of that scenario. -/
def c5pairs : List PairRow :=
  toPairRows (init_edges (buildSession c5rows) absDiff (.num 20) sum_horizontal)

/-- Entities of the three-group specification scenario:
`{1: D, 2: D, 3: E, 4: E, 5: F, 6: F}` with values `{10, ..., 60}` (labels
D, E, F modelled as 1, 2, 3). -/
def c6rows : List RawRow :=
  [⟨1, 1, 10⟩, ⟨2, 1, 20⟩, ⟨3, 2, 30⟩, ⟨4, 2, 40⟩, ⟨5, 3, 50⟩, ⟨6, 3, 60⟩]

/-- The session of the three-group scenario. -/
def c6session : Session := buildSession c6rows

/-- A three-group hyperedge table with two vertex-disjoint hyperedges of
weight 30 each (input for the penalty-formula counterexample: smallest group
size 2, maximum weight 30, achievable total weight 60). -/
def df3 : List Row := [⟨[], [1, 3, 5], 30⟩, ⟨[], [2, 4, 6], 30⟩]

/-- Column list of a three-group hyperedge table. -/
def cols3 : List String := ["id_0", "id_1", "id_2", "_weight"]

/-- A one-row CP-SAT input used to instantiate the disjointness theorem. -/
def wdfRow : List Row := [⟨[], [1, 3], 5⟩]

/-- A one-pair LSA input used to instantiate the disjointness theorem. -/
def wpairs : List PairRow := [⟨0, 0, 7, 8, 5⟩]

-- ### development sanity checks

example : Frac.trunc ((Frac.ofInt 23).div 2) = 11 := by decide
example : Frac.trunc ((Frac.ofInt (-7)).div 2) = -3 := by decide
example : Frac.le 20 30 = true := by decide
example : ((10 : Frac).sub 30).abs = 20 := by decide
example : sum_horizontal [10, 30, 20] = 60 := by decide
example : max_horizontal [10, 30, 20] = 30 := by decide
example : colMax [] = none := by decide
example : partKeys [some 2, some 1, some 2, none] = [some 1, some 2, none] := by decide
example : isError (initSession ⟨["id", "g"], [some 1, some 2], [some 1, some 2]⟩ "id" "g" true) = false := by
  decide
example : isError (initSession ⟨["id", "g"], [some 1, some 1], [some 1, some 2]⟩ "id" "g" true) = true := by
  decide
example : isError (initSession ⟨["id", "g"], [some 1, some 2], [some 1, some 1]⟩ "id" "g" true) = true := by
  decide

-- the three-group docstring example (lines 155-190 of the source)
example :
    init_edges (buildSession [⟨1, 1, 10⟩, ⟨2, 1, 20⟩, ⟨3, 2, 30⟩, ⟨4, 2, 40⟩, ⟨5, 3, 50⟩, ⟨6, 3, 60⟩])
      absDiff (.num 30) sum_horizontal
      = [⟨[], [2, 3, 5], 60⟩, ⟨[], [2, 4, 5], 60⟩] := by decide

example :
    init_edges (buildSession [⟨1, 1, 10⟩, ⟨2, 1, 20⟩, ⟨3, 2, 30⟩, ⟨4, 2, 40⟩, ⟨5, 3, 50⟩, ⟨6, 3, 60⟩])
      absDiff (.num 30) max_horizontal
      = [⟨[], [2, 3, 5], 30⟩, ⟨[], [2, 4, 5], 30⟩] := by decide

-- the two-group docstring example (lines 192-215 of the source)
example :
    init_edges (buildSession [⟨1, 1, 10⟩, ⟨2, 1, 20⟩, ⟨3, 2, 30⟩, ⟨4, 2, 40⟩])
      absDiff (.num 20) sum_horizontal
      = [⟨[0, 0], [1, 3], 20⟩, ⟨[1, 0], [2, 3], 10⟩, ⟨[1, 1], [2, 4], 20⟩] := by decide

example : c2pairs = [⟨0, 0, 1, 3, 20⟩, ⟨1, 0, 2, 3, 10⟩, ⟨1, 1, 2, 4, 20⟩] := by decide

example :
    find_multiplets_pre hyperCols2 "_weight" (c2pairs.map (fun r => r.w)) none
      = .ok (Frac.ofInt 23) := by decide

example : c2sarcs =
    [(0, 0, 20), (1, 0, 10), (1, 1, 20),
     (2, 0, 11), (2, 1, 11), (3, 0, 11), (3, 1, 11),
     (0, 2, 11), (0, 3, 11), (1, 2, 11), (1, 3, 11),
     (2, 2, 0), (3, 3, 0)] := by decide

example : FeasibleMate c2sarcs 4 c2mate0 := by decide

example : totalCost c2sarcs 4 c2mate0 = 32 := by decide

example : lsaExtract c2arcs 4 c2mate0 = [(2, 3, 10)] := by decide

example :
    ∀ l ∈ allFuns 4 4, FeasibleMate c2sarcs 4 (fun i => l.getD i 0) →
      32 ≤ totalCost c2sarcs 4 (fun i => l.getD i 0) := by decide

example :
    ∀ l ∈ allFuns 4 4, FeasibleMate c2sarcs 4 (fun i => l.getD i 0) →
      totalCost c2sarcs 4 (fun i => l.getD i 0) ≤ 32 →
      lsaExtract c2arcs 4 (fun i => l.getD i 0) = [(2, 3, 10)] := by decide

-- ## General lemmas about the embedding

theorem length_insertBy (le : α → α → Bool) (a : α) (l : List α) :
    (insertBy le a l).length = l.length + 1 := by
  induction l with
  | nil => rfl
  | cons b t ih =>
    unfold insertBy
    cases le b a <;> simp [ih]

theorem length_sortBy (le : α → α → Bool) (l : List α) :
    (sortBy le l).length = l.length := by
  induction l with
  | nil => rfl
  | cons a t ih => simp [sortBy, length_insertBy, ih]

theorem length_partKeys (gs : List (Option ℤ)) :
    (partKeys gs).length = numGroups gs := by
  unfold partKeys numGroups
  by_cases h : none ∈ gs.dedup
  · have h1 : (gs.dedup.erase none).length = gs.dedup.length - 1 :=
      List.length_erase_of_mem h
    have h2 : 0 < gs.dedup.length := List.length_pos.mpr (List.ne_nil_of_mem h)
    simp only [h, if_true, List.length_append, length_sortBy, h1, List.length_cons,
      List.length_nil]
    omega
  · simp [h, length_sortBy]

theorem unique_check_iff (ids : List (Option ℤ)) :
    ids.length = ((ids.dedup).filter (fun x => x.isSome)).length ↔
      (∀ x ∈ ids, x.isSome = true) ∧ ids.Nodup := by
  constructor
  · intro h
    have hs1 : List.Sublist (ids.dedup.filter (fun x => x.isSome)) ids.dedup :=
      List.filter_sublist _
    have hs2 : List.Sublist ids.dedup ids := List.dedup_sublist ids
    have hl1 := hs1.length_le
    have hl2 := hs2.length_le
    have hd : ids.dedup = ids := hs2.eq_of_length (by omega)
    have hf : ids.dedup.filter (fun x => x.isSome) = ids.dedup :=
      hs1.eq_of_length (by omega)
    rw [hd] at hf
    exact ⟨List.filter_eq_self.mp hf, hd ▸ List.nodup_dedup ids⟩
  · rintro ⟨hall, hnd⟩
    rw [List.dedup_eq_self.mpr hnd, List.filter_eq_self.mpr hall]

-- ## C7

/-- C7: the session constructor raises an error if and only if the entity
table is empty, the identifier or group column is absent, the identifier
values are not non-null and unique, partitioning by the group key yields
exactly one group, or it yields more than 10 groups while the cap-check flag
is enabled; an error means no session is produced, so no edge or matching
operation can run. -/
theorem initSession_error_iff (df : EntityTable) (idc gc : String) (ctb : Bool) :
    isError (initSession df idc gc ctb) = true ↔
      (df.idvals.length = 0 ∨ ¬ (idc ∈ df.cols) ∨ ¬ (gc ∈ df.cols) ∨
        ¬ ((∀ x ∈ df.idvals, x.isSome = true) ∧ df.idvals.Nodup) ∨
        numGroups df.gvals = 1 ∨ (10 < numGroups df.gvals ∧ ctb = true)) := by
  rw [← length_partKeys df.gvals, ← unique_check_iff df.idvals]
  simp only [initSession]
  split_ifs with h1 h2 h3 h4 h5 h6
  · exact iff_of_true rfl (Or.inl h1)
  · exact iff_of_true rfl (Or.inr (Or.inr (Or.inr (Or.inl h4))))
  · exact iff_of_true rfl (Or.inr (Or.inr (Or.inr (Or.inr (Or.inl h5)))))
  · exact iff_of_true rfl (Or.inr (Or.inr (Or.inr (Or.inr (Or.inr h6)))))
  · refine iff_of_false (by simp [isError]) ?_
    rintro (hc | hc | hc | hc | hc | hc)
    · exact h1 hc
    · exact hc h2
    · exact hc h3
    · exact h4 hc
    · exact h5 hc
    · exact h6 hc
  · exact iff_of_true rfl (Or.inr (Or.inr (Or.inl h3)))
  · exact iff_of_true rfl (Or.inr (Or.inl h2))

-- ## C4

/-- C4: when the weight column named by the caller is absent from the input
dataframe, `find_multiplets` does not zero-fill it and proceed: line 395
evaluates the undefined name `pl` (the module imports polars as `PL`), so the
call raises `NameError` on both strategy paths, before `self.multiplets` is
assigned, and no warning is issued. -/
theorem missing_weight_column_raises (df : List Row) (df2 : List PairRow)
    (cols : List String) (w : String) (p? mq : Option Frac) (stF : Bool)
    (sel : ℕ → Bool) (h0 h1 : ℕ) (st : LSAStatus) (mate : ℕ → ℕ)
    (hw : ¬ (w ∈ cols)) :
    cpsatRun df cols w p? stF sel = (none, .error (.nameError "name pl is not defined")) ∧
    lsaRun df2 cols w p? mq h0 h1 st mate =
      (none, .error (.nameError "name pl is not defined")) := by
  constructor
  · unfold cpsatRun find_multiplets_pre
    simp [hw]
  · unfold lsaRun find_multiplets_pre
    simp [hw]

/-- Witness: a concrete call lacking the weight column raises `NameError`. -/
theorem missing_weight_column_raises_witness :
    cpsatRun df3 ["id_0", "id_1", "id_2"] "_weight" none true (fun _ => true) =
      (none, .error (.nameError "name pl is not defined")) ∧
    lsaRun c2pairs ["_rowid_0", "_rowid_1", "id_0", "id_1"] "_weight" none none 2 2
        .optimal id =
      (none, .error (.nameError "name pl is not defined")) :=
  ⟨(missing_weight_column_raises df3 c2pairs ["id_0", "id_1", "id_2"] "_weight" none none
      true (fun _ => true) 2 2 .optimal id (by decide)).1,
   (missing_weight_column_raises df3 c2pairs ["_rowid_0", "_rowid_1", "id_0", "id_1"]
      "_weight" none none true (fun _ => true) 2 2 .optimal id (by decide)).2⟩

-- ## C6

/-- C6: on the three-group scenario `{1:D, 2:D, 3:E, 4:E, 5:F, 6:F}` with
values `{10, ..., 60}`, `init_edges` with weight `|value_A - value_B|` and
filter `≤ 30` produces exactly the hyperedges `(2, 3, 5)` and `(2, 4, 5)`,
each of weight 60 under the sum aggregator, and the same identifier tuples
of weight 30 each under the max aggregator. -/
theorem init_edges_three_groups_example :
    init_edges c6session absDiff (.num 30) sum_horizontal
        = [⟨[], [2, 3, 5], 60⟩, ⟨[], [2, 4, 5], 60⟩] ∧
    init_edges c6session absDiff (.num 30) max_horizontal
        = [⟨[], [2, 3, 5], 30⟩, ⟨[], [2, 4, 5], 30⟩] := by
  decide

-- ## C8

/-- C8: with exactly two groups the LSA algorithm is used unless
`force_CPSAT` is set, in which case CP-SAT is used; with three or more groups
CP-SAT is always used and `force_CPSAT` only produces a no-op warning; a
supplied `multiplier` under CP-SAT and a supplied `max_time` under LSA each
produce an advisory warning (and neither parameter is consumed by the branch
that warns about it: `cpsatRun` takes no multiplier and `lsaRun` no
max_time). -/
theorem strategy_selection (k : ℕ) (force : Bool) (mq mt : Option Frac) :
    (k = 2 → force = false → chooseStrategy k force = .LSA) ∧
    (k = 2 → force = true → chooseStrategy k force = .CPSAT) ∧
    (3 ≤ k → chooseStrategy k force = .CPSAT) ∧
    (3 ≤ k → ((advisories k force mq mt).forceNoop = true ↔ force = true)) ∧
    (chooseStrategy k force = .CPSAT →
      ((advisories k force mq mt).multiplierIgnored = true ↔ mq.isSome = true)) ∧
    (chooseStrategy k force = .LSA →
      ((advisories k force mq mt).maxTimeIgnored = true ↔ mt.isSome = true)) := by
  unfold chooseStrategy advisories
  by_cases hf : force = true <;> by_cases hk : 3 ≤ k <;>
    first
    | (simp [hf, hk]; omega)
    | simp [hf, hk]

/-- Witness for the strategy-selection characterization at concrete inputs. -/
theorem strategy_selection_witness :
    chooseStrategy 2 false = .LSA ∧ chooseStrategy 2 true = .CPSAT ∧
    chooseStrategy 3 false = .CPSAT ∧
    ((advisories 3 true (some 2) none).forceNoop = true ↔ true = true) ∧
    ((advisories 3 false (some 2) none).multiplierIgnored = true ↔
      (some (2 : Frac)).isSome = true) ∧
    ((advisories 2 false none (some 5)).maxTimeIgnored = true ↔
      (some (5 : Frac)).isSome = true) :=
  ⟨(strategy_selection 2 false none none).1 rfl rfl,
   (strategy_selection 2 true none none).2.1 rfl rfl,
   (strategy_selection 3 false none none).2.2.1 (by omega),
   (strategy_selection 3 true (some 2) none).2.2.2.1 (by omega),
   (strategy_selection 3 false (some 2) none).2.2.2.2.1
     ((strategy_selection 3 false (some 2) none).2.2.1 (by omega)),
   (strategy_selection 2 false none (some 5)).2.2.2.2.2
     ((strategy_selection 2 false none (some 5)).1 rfl rfl)⟩

-- ## C10

theorem pre_not_noSolution (cols : List String) (w : String) (wvals : List Frac)
    (p? : Option Frac) (s : String) :
    find_multiplets_pre cols w wvals p? ≠ .error (.noSolution s) := by
  unfold find_multiplets_pre
  split_ifs with hw
  · cases p? with
    | some p => simp
    | none => cases colMax wvals <;> simp
  · simp

/-- C10: whenever `find_multiplets` raises the NoSolution error — CP-SAT
status outside `[OPTIMAL, FEASIBLE]`, or LSA status `INFEASIBLE` or
`POSSIBLE_OVERFLOW` — the session attribute `self.multiplets` has already
been set to a zero-row dataframe before the exception propagates. -/
theorem nosolution_sets_empty_multiplets :
    (∀ (df : List Row) (cols : List String) (w : String) (p? : Option Frac)
       (stF : Bool) (sel : ℕ → Bool) (s : String),
       (cpsatRun df cols w p? stF sel).2 = .error (.noSolution s) →
       (cpsatRun df cols w p? stF sel).1 = some []) ∧
    (∀ (df : List PairRow) (cols : List String) (w : String)
       (p? mq : Option Frac) (h0 h1 : ℕ) (st : LSAStatus) (mate : ℕ → ℕ)
       (s : String),
       (lsaRun df cols w p? mq h0 h1 st mate).2 = .error (.noSolution s) →
       (lsaRun df cols w p? mq h0 h1 st mate).1 = some []) := by
  constructor
  · intro df cols w p? stF sel s h
    unfold cpsatRun at h ⊢
    cases hpre : find_multiplets_pre cols w (df.map (fun r => r.w)) p? with
    | error e =>
      rw [hpre] at h
      simp at h
      exact absurd (by rw [hpre, h]) (pre_not_noSolution cols w _ p? s)
    | ok p =>
      rw [hpre] at h
      cases stF with
      | true => simp at h
      | false => simp
  · intro df cols w p? mq h0 h1 st mate s h
    unfold lsaRun at h ⊢
    cases hpre : find_multiplets_pre cols w (df.map (fun r => r.w)) p? with
    | error e =>
      rw [hpre] at h
      simp at h
      exact absurd (by rw [hpre, h]) (pre_not_noSolution cols w _ p? s)
    | ok p =>
      rw [hpre] at h
      cases st with
      | optimal => simp at h
      | infeasible => simp
      | possibleOverflow => simp

/-- Witness: concrete NoSolution raises with the empty-solution state set, on
both branches. -/
theorem nosolution_sets_empty_multiplets_witness :
    (cpsatRun df3 cols3 "_weight" none false (fun _ => true)).1 = some [] ∧
    (lsaRun c2pairs hyperCols2 "_weight" none none 2 2 .infeasible id).1 = some [] :=
  ⟨nosolution_sets_empty_multiplets.1 df3 cols3 "_weight" none false (fun _ => true)
      "No solution found" (by decide),
   nosolution_sets_empty_multiplets.2 c2pairs hyperCols2 "_weight" none none 2 2
      .infeasible id "No assignment is possible" (by decide)⟩

-- ## LSA structural lemmas

theorem rangedf_ids_none (a0 b0 a1 b1 : ℕ) (w : Frac) :
    ∀ r ∈ rangedf a0 b0 a1 b1 w, r.ids = none := by
  intro r hr
  unfold rangedf at hr
  rcases List.mem_flatMap.mp hr with ⟨i, _, hi⟩
  rcases List.mem_map.mp hi with ⟨j, _, hj⟩
  rw [← hj]

theorem filterMap_ids_none (l : List ArcRow) (h : ∀ r ∈ l, r.ids = none) :
    l.filterMap (fun r => r.ids.map (fun q => (q.1, q.2, r.w))) = [] := by
  induction l with
  | nil => rfl
  | cons a t ih =>
    have ha := h a (by simp)
    rw [List.filterMap_cons, ha]
    exact ih (fun r hr => h r (by simp [hr]))

theorem filter_filterMap_real (df : List PairRow) (i j : ℕ) :
    (((df.map (fun r => (⟨r.rid0, r.rid1, some (r.id0, r.id1), r.w⟩ : ArcRow))).filter
        (fun r => r.rid0 == i && r.rid1 == j)).filterMap
      (fun r => r.ids.map (fun q => (q.1, q.2, r.w)))) =
    (df.filter (fun r => r.rid0 == i && r.rid1 == j)).map
      (fun r => (r.id0, r.id1, r.w)) := by
  induction df with
  | nil => rfl
  | cons a t ih =>
    by_cases hq : (a.rid0 == i && a.rid1 == j) = true
    · simp [List.filter_cons, hq, List.filterMap_cons, ih]
    · simp [List.filter_cons, hq, ih]

theorem buildArcs_synth_ids_none (h0 h1 : ℕ) :
    (∀ r ∈ (if h0 < h1 then rangedf h0 h1 0 h1 0
             else if h1 < h0 then rangedf 0 h0 h1 h0 0 else ([] : List ArcRow)),
       r.ids = none) ∧
    (∀ r ∈ (List.range' (max h0 h1) ((h0 + h1) - max h0 h1)).map
        (fun i => (⟨i, i, none, 0⟩ : ArcRow)), r.ids = none) := by
  constructor
  · split_ifs with ha hb
    · exact rangedf_ids_none h0 h1 0 h1 0
    · exact rangedf_ids_none 0 h0 h1 h0 0
    · intro r hr; simp at hr
  · intro r hr
    rcases List.mem_map.mp hr with ⟨i, _, hj⟩
    rw [← hj]

theorem arcs_block (df : List PairRow) (h0 h1 : ℕ) (p : Frac) (i j : ℕ) :
    ((buildArcs df h0 h1 p).filter (fun r => r.rid0 == i && r.rid1 == j)).filterMap
      (fun r => r.ids.map (fun q => (q.1, q.2, r.w))) =
    (df.filter (fun r => r.rid0 == i && r.rid1 == j)).map
      (fun r => (r.id0, r.id1, r.w)) := by
  have hsyn : ∀ (l : List ArcRow), (∀ r ∈ l, r.ids = none) →
      ((l.filter (fun r => r.rid0 == i && r.rid1 == j)).filterMap
        (fun r => r.ids.map (fun q => (q.1, q.2, r.w)))) = [] := by
    intro l hl
    exact filterMap_ids_none _ (fun r hr => hl r (List.mem_filter.mp hr).1)
  obtain ⟨hpad, hself⟩ := buildArcs_synth_ids_none h0 h1
  unfold buildArcs
  rw [List.filter_append, List.filter_append, List.filter_append, List.filter_append,
    List.filterMap_append, List.filterMap_append, List.filterMap_append,
    List.filterMap_append]
  rw [hsyn _ hpad, hsyn _ (rangedf_ids_none (max h0 h1) (h0 + h1) 0 h1 (p.div 2)),
    hsyn _ (rangedf_ids_none 0 h0 (max h0 h1) (h0 + h1) (p.div 2)), hsyn _ hself]
  simp only [List.append_nil]
  exact filter_filterMap_real df i j

theorem lsaExtract_buildArcs (df : List PairRow) (h0 h1 N : ℕ) (p : Frac)
    (mate : ℕ → ℕ) :
    lsaExtract (buildArcs df h0 h1 p) N mate =
      (List.range N).flatMap (fun i =>
        (df.filter (fun r => r.rid0 == i && r.rid1 == mate i)).map
          (fun r => (r.id0, r.id1, r.w))) := by
  unfold lsaExtract
  rw [List.flatMap_def, List.flatMap_def]
  congr 1
  apply List.map_congr_left
  intro i _
  exact arcs_block df h0 h1 p i (mate i)

theorem flatMap_const_nil (l : List α) : l.flatMap (fun _ => ([] : List β)) = [] := by
  induction l with
  | nil => rfl
  | cons a t ih => simp [ih]

-- ## C5

/-- C5 counterexample: a two-group session (`D = {1: 10}`, `E = {3: 100}`)
whose filter `≤ 20` rejects every cross-group pair gives an empty hyperedge
table, and `find_multiplets` with default parameters then raises `TypeError`
(computing the default penalty `int(max().item() + 3)` on the empty weight
column adds 3 to `None`), not the NoSolution error the claim states. -/
theorem empty_hyperedges_no_nosolution_counterexample :
    c5pairs = [] ∧
    (lsaRun c5pairs hyperCols2 "_weight" none none 1 1 .optimal id).2 =
      .error (.typeError "unsupported operand types for addition: NoneType and int") ∧
    ¬ ((lsaRun c5pairs hyperCols2 "_weight" none none 1 1 .optimal id).2 =
        .error (.noSolution "No assignment is possible")) := by
  decide

/-- C5 (amended): on an empty two-group hyperedge table, `find_multiplets`
via the assignment path with the default penalty raises `TypeError` while
computing the default penalty from the empty weight column — it does not
raise the NoSolution error; with a caller-supplied penalty the augmented
instance is solvable and the call returns a zero-row solution without
error. -/
theorem empty_hyperedges_behavior (cols : List String) (w : String) (hw : w ∈ cols)
    (mq : Option Frac) (h0 h1 : ℕ) (st : LSAStatus) (mate : ℕ → ℕ) :
    (lsaRun [] cols w none mq h0 h1 st mate).2 =
      .error (.typeError "unsupported operand types for addition: NoneType and int") ∧
    (∀ q : Frac, (lsaRun [] cols w (some q) mq h0 h1 .optimal mate).2 = .ok []) := by
  constructor
  · unfold lsaRun find_multiplets_pre
    simp [hw]
    rfl
  · intro q
    unfold lsaRun find_multiplets_pre
    simp [hw]
    rw [lsaExtract_buildArcs]
    simp [flatMap_const_nil]

/-- Witness for the amended empty-table behavior at a concrete call. -/
theorem empty_hyperedges_behavior_witness :
    (lsaRun [] hyperCols2 "_weight" none none 1 1 .optimal id).2 =
      .error (.typeError "unsupported operand types for addition: NoneType and int") ∧
    (lsaRun [] hyperCols2 "_weight" (some 23) none 1 1 .optimal id).2 = .ok [] :=
  ⟨(empty_hyperedges_behavior hyperCols2 "_weight" (by decide) none 1 1 .optimal id).1,
   (empty_hyperedges_behavior hyperCols2 "_weight" (by decide) none 1 1 .optimal id).2 23⟩

-- ## C1 lemmas

theorem pairwise_of_length_le_one {R : α → α → Prop} (l : List α) (h : l.length ≤ 1) :
    l.Pairwise R := by
  match l, h with
  | [], _ => exact .nil
  | [a], _ => exact List.pairwise_singleton R a
  | a :: b :: t, h => simp at h

theorem filter_length_le_one_of_pairwise {R : α → α → Prop} (l : List α)
    (hl : l.Pairwise R) (p : α → Bool)
    (h : ∀ a b, p a = true → p b = true → R a b → False) :
    (l.filter p).length ≤ 1 := by
  rcases hf : l.filter p with _ | ⟨a, _ | ⟨b, t⟩⟩
  · simp
  · simp
  · exfalso
    have hp : (l.filter p).Pairwise R := hl.filter p
    rw [hf] at hp
    have hab : R a b := (List.pairwise_cons.mp hp).1 b (by simp)
    have hpa : p a = true := by
      have : a ∈ l.filter p := by rw [hf]; simp
      exact (List.mem_filter.mp this).2
    have hpb : p b = true := by
      have : b ∈ l.filter p := by rw [hf]; simp
      exact (List.mem_filter.mp this).2
    exact h a b hpa hpb hab

theorem selected_filter_le_sum (v : ℤ) (sel : ℕ → Bool) (l : List (ℕ × Row)) :
    (((l.filter (fun p => sel p.1)).map Prod.snd).filter
        (fun r => decide (v ∈ r.ids))).length ≤
      (l.map (fun p => p.2.ids.count v * (bif sel p.1 then 1 else 0))).sum := by
  induction l with
  | nil => simp
  | cons a t ih =>
    by_cases hs : sel a.1 = true
    · by_cases hc : v ∈ a.2.ids
      · have h1 : 1 ≤ a.2.ids.count v := List.one_le_count_iff.mpr hc
        simp [List.filter_cons, hs, hc]
        omega
      · simp [List.filter_cons, hs, hc]
        omega
    · have hs' : sel a.1 = false := by
        cases hsel : sel a.1
        · rfl
        · exact absurd hsel hs
      simp [List.filter_cons, hs']
      omega

theorem mem_cpsatSelected (df : List Row) (sel : ℕ → Bool) :
    ∀ r ∈ cpsatSelected df sel, r ∈ df := by
  intro r hr
  unfold cpsatSelected at hr
  have h1 : List.Sublist ((df.enum.filter (fun p => sel p.1)).map Prod.snd)
      (df.enum.map Prod.snd) := (List.filter_sublist _).map _
  have h2 := h1.subset hr
  rw [List.enum_map_snd] at h2
  exact h2

theorem filter_key_len_le_one (df : List PairRow) (hk : PairKeysNodup df) (i j : ℕ) :
    (df.filter (fun r => r.rid0 == i && r.rid1 == j)).length ≤ 1 := by
  induction df with
  | nil => simp
  | cons a t ih =>
    have hk0 := List.nodup_cons.mp hk
    by_cases hq : (a.rid0 == i && a.rid1 == j) = true
    · have hnone : ∀ x ∈ t, ¬((fun r => r.rid0 == i && r.rid1 == j) x = true) := by
        intro x hx hxq
        apply hk0.1
        simp only [Bool.and_eq_true, beq_iff_eq] at hq hxq
        have hxa : (x.rid0, x.rid1) = (a.rid0, a.rid1) := by
          rw [hq.1, hq.2, hxq.1, hxq.2]
        simp only [List.mem_map]
        exact ⟨x, hx, hxa⟩
      rw [List.filter_cons, if_pos hq, List.filter_eq_nil_iff.mpr hnone]
      simp
    · rw [List.filter_cons, if_neg hq]
      exact ih hk0.2

theorem pairwise_disjoint_lsaExtract (df : List PairRow) (h0 h1 : ℕ) (p : Frac)
    (mate : ℕ → ℕ) (hk : PairKeysNodup df) (hid : IdDeterminesRid df)
    (hgd : GroupsIdDisjoint df) (hmj : MateInj (h0 + h1) mate) :
    (lsaExtract (buildArcs df h0 h1 p) (h0 + h1) mate).Pairwise
      (fun x y => x.1 ≠ y.1 ∧ x.2.1 ≠ y.2.1 ∧ x.1 ≠ y.2.1 ∧ x.2.1 ≠ y.1) := by
  rw [lsaExtract_buildArcs, List.flatMap_def, List.pairwise_flatten]
  constructor
  · intro l hl
    rcases List.mem_map.mp hl with ⟨i, _, hli⟩
    rw [← hli]
    apply pairwise_of_length_le_one
    rw [List.length_map]
    exact filter_key_len_le_one df hk i (mate i)
  · rw [List.pairwise_map]
    refine (List.pairwise_lt_range (h0 + h1)).imp_of_mem ?_
    intro i i' hi hi' hlt x hx y hy
    rcases List.mem_map.mp hx with ⟨r, hr, hxr⟩
    rcases List.mem_map.mp hy with ⟨r2, hr2, hyr⟩
    rw [← hxr, ← hyr]
    obtain ⟨hrdf, hrkey⟩ := List.mem_filter.mp hr
    obtain ⟨hr2df, hr2key⟩ := List.mem_filter.mp hr2
    simp only [Bool.and_eq_true, beq_iff_eq] at hrkey hr2key
    have hine : i ≠ i' := Nat.ne_of_lt hlt
    have hiN : i < h0 + h1 := List.mem_range.mp hi
    have hi'N : i' < h0 + h1 := List.mem_range.mp hi'
    refine ⟨?_, ?_, ?_, ?_⟩
    · intro he
      apply hine
      have := (hid r hrdf r2 hr2df).1 he
      rw [hrkey.1, hr2key.1] at this
      exact this
    · intro he
      have := (hid r hrdf r2 hr2df).2 he
      rw [hrkey.2, hr2key.2] at this
      exact hine (hmj i hiN i' hi'N this)
    · exact hgd r hrdf r2 hr2df
    · intro he
      exact (hgd r2 hr2df r hrdf) he.symm

-- ## C1

/-- C1: for every table returned by `find_multiplets`, under either strategy,
no vertex identifier value appears in more than one returned row, across all
identifier positions.  CP-SAT side: any selection satisfying the
mutual-exclusion constraints the code builds (one constraint per identifier
value, over its occurrences in every position) is vertex-disjoint.  LSA side:
for any table whose `(rowid, id)` columns are consistent (as `init_edges`
produces for a valid session: distinct rowid pairs, ids determining rowids
within each side, sides drawing on disjoint id sets) and any injective mate
function, the extracted pair table is vertex-disjoint. -/
theorem solutions_vertex_disjoint :
    (∀ (df : List Row) (sel : ℕ → Bool), FeasibleSel df sel →
      VertexDisjoint (cpsatSelected df sel)) ∧
    (∀ (df : List PairRow) (h0 h1 : ℕ) (p : Frac) (mate : ℕ → ℕ),
      PairKeysNodup df → IdDeterminesRid df → GroupsIdDisjoint df →
      MateInj (h0 + h1) mate →
      VertexDisjoint₂ (lsaExtract (buildArcs df h0 h1 p) (h0 + h1) mate)) := by
  constructor
  · intro df sel hsel v
    by_cases hv : v ∈ df.flatMap (fun r => r.ids)
    · have hle := selected_filter_le_sum v sel df.enum
      have hb := hsel v hv
      unfold cpsatSelected
      omega
    · have hnil : (cpsatSelected df sel).filter (fun r => decide (v ∈ r.ids)) = [] := by
        rw [List.filter_eq_nil_iff]
        intro r hr hvr
        simp only [decide_eq_true_eq] at hvr
        exact hv (List.mem_flatMap.mpr ⟨r, mem_cpsatSelected df sel r hr, hvr⟩)
      rw [hnil]
      simp
  · intro df h0 h1 p mate hk hid hgd hmj v
    apply filter_length_le_one_of_pairwise _
      (pairwise_disjoint_lsaExtract df h0 h1 p mate hk hid hgd hmj)
    intro a b ha hb hab
    simp only [Bool.or_eq_true, beq_iff_eq] at ha hb
    rcases ha with ha | ha <;> rcases hb with hb | hb
    · exact hab.1 (ha.trans hb.symm)
    · exact hab.2.2.1 (ha.trans hb.symm)
    · exact hab.2.2.2 (ha.trans hb.symm)
    · exact hab.2.1 (ha.trans hb.symm)

/-- Witness: both parts of the disjointness theorem at concrete inputs. -/
theorem solutions_vertex_disjoint_witness :
    VertexDisjoint (cpsatSelected wdfRow (fun _ => true)) ∧
    VertexDisjoint₂ (lsaExtract (buildArcs wpairs 1 1 4) (1 + 1) id) :=
  ⟨solutions_vertex_disjoint.1 wdfRow (fun _ => true) (by decide),
   solutions_vertex_disjoint.2 wpairs 1 1 4 id (by decide) (by decide) (by decide)
     (by decide)⟩

-- ## C2 lemmas

theorem feasibleMate_of_agree (sarcs : List (ℕ × ℕ × ℤ)) (N : ℕ) (f g : ℕ → ℕ)
    (h : ∀ i, i < N → f i = g i) (hf : FeasibleMate sarcs N f) :
    FeasibleMate sarcs N g := by
  obtain ⟨h1, h2⟩ := hf
  refine ⟨fun i hi => ?_, fun i hi j hj he => ?_⟩
  · rw [← h i hi]
    exact h1 i hi
  · exact h2 i hi j hj (by rw [h i hi, h j hj]; exact he)

theorem totalCost_congr (sarcs : List (ℕ × ℕ × ℤ)) (N : ℕ) (f g : ℕ → ℕ)
    (h : ∀ i, i < N → f i = g i) : totalCost sarcs N f = totalCost sarcs N g := by
  unfold totalCost
  congr 1
  apply List.map_congr_left
  intro i hi
  rw [h i (List.mem_range.mp hi)]

theorem lsaExtract_congr (arcs : List ArcRow) (N : ℕ) (f g : ℕ → ℕ)
    (h : ∀ i, i < N → f i = g i) : lsaExtract arcs N f = lsaExtract arcs N g := by
  unfold lsaExtract
  rw [List.flatMap_def, List.flatMap_def]
  congr 1
  apply List.map_congr_left
  intro i hi
  rw [h i (List.mem_range.mp hi)]

theorem mem_allFuns (n m : ℕ) : ∀ l : List ℕ,
    l ∈ allFuns n m ↔ l.length = n ∧ ∀ x ∈ l, x < m := by
  induction n with
  | zero =>
    intro l
    unfold allFuns
    constructor
    · intro h
      simp at h
      subst h
      simp
    · rintro ⟨hl, _⟩
      simp [List.length_eq_zero.mp hl]
  | succ n ih =>
    intro l
    unfold allFuns
    simp only [List.mem_flatMap, List.mem_map, List.mem_range]
    constructor
    · rintro ⟨v, hv, t, ht, hvt⟩
      obtain ⟨hlen, hb⟩ := (ih t).mp ht
      subst hvt
      refine ⟨by simp [hlen], ?_⟩
      intro x hx
      rcases List.mem_cons.mp hx with hx | hx
      · rw [hx]; exact hv
      · exact hb x hx
    · rintro ⟨hlen, hb⟩
      cases l with
      | nil => simp at hlen
      | cons v t =>
        exact ⟨v, hb v (by simp), t,
          (ih t).mpr ⟨by simpa using hlen, fun x hx => hb x (by simp [hx])⟩, rfl⟩

theorem getD_map_range (g : ℕ → ℕ) (N i : ℕ) (hi : i < N) :
    ((List.range N).map g).getD i 0 = g i := by
  rw [List.getD_eq_getElem?_getD, List.getElem?_map, List.getElem?_range hi]
  rfl

theorem range_map_mem_allFuns (g : ℕ → ℕ) (N : ℕ) (hb : ∀ i, i < N → g i < N) :
    (List.range N).map g ∈ allFuns N N := by
  rw [mem_allFuns]
  refine ⟨by simp, ?_⟩
  intro x hx
  rcases List.mem_map.mp hx with ⟨i, hi, hgi⟩
  rw [← hgi]
  exact hb i (List.mem_range.mp hi)

-- ## C2

/-- C2: on the two-group scenario `D = {1: 10, 2: 20}`, `E = {3: 30, 4: 40}`
with weight `|value_A - value_B|` and filter `≤ 20` (edges `(1,3,20)`,
`(2,3,10)`, `(2,4,20)`), `find_multiplets` with default parameters via the
assignment path does NOT return the vertex-disjoint pair set of cardinality 2
and total weight 40: with the default penalty `int(20+3) = 23` the dummy arcs
cost `int(23/2) = 11` each, so every minimum-cost perfect matching of the
augmented instance (optimal cost 32) keeps only the single pair `(2, 3)` of
weight 10.  This contradicts the spec scenario and the method docstring
("the set with the most hyperedges"). -/
theorem assignment_default_penalty_drops_pair (mate : ℕ → ℕ)
    (hopt : OptimalMate c2sarcs 4 mate) :
    (lsaRun c2pairs hyperCols2 "_weight" none none 2 2 .optimal mate).2 =
      .ok [(2, 3, 10)] := by
  obtain ⟨hf, hmin⟩ := hopt
  have hrun : (lsaRun c2pairs hyperCols2 "_weight" none none 2 2 .optimal mate).2 =
      .ok (lsaExtract c2arcs 4 mate) := by rfl
  rw [hrun]
  have hb : ∀ i, i < 4 → mate i < 4 := fun i hi => (hf.1 i hi).1
  have hmem : (List.range 4).map mate ∈ allFuns 4 4 := range_map_mem_allFuns mate 4 hb
  have hagree : ∀ i, i < 4 → ((List.range 4).map mate).getD i 0 = mate i :=
    fun i hi => getD_map_range mate 4 i hi
  have hfl : FeasibleMate c2sarcs 4 (fun i => ((List.range 4).map mate).getD i 0) :=
    feasibleMate_of_agree _ _ _ _ (fun i hi => (hagree i hi).symm) hf
  have hm0 : FeasibleMate c2sarcs 4 c2mate0 := by decide
  have hc0 : totalCost c2sarcs 4 c2mate0 = 32 := by decide
  have hle : totalCost c2sarcs 4 mate ≤ 32 := hc0 ▸ hmin c2mate0 hm0
  have hcl : totalCost c2sarcs 4 (fun i => ((List.range 4).map mate).getD i 0) ≤ 32 := by
    rw [totalCost_congr _ _ _ mate hagree]
    exact hle
  have hkey : ∀ l2 ∈ allFuns 4 4, FeasibleMate c2sarcs 4 (fun i => l2.getD i 0) →
      totalCost c2sarcs 4 (fun i => l2.getD i 0) ≤ 32 →
      lsaExtract c2arcs 4 (fun i => l2.getD i 0) = [(2, 3, 10)] := by decide
  have hext := hkey _ hmem hfl hcl
  rw [lsaExtract_congr c2arcs 4 mate (fun i => ((List.range 4).map mate).getD i 0)
    (fun i hi => (hagree i hi).symm), hext]

theorem c2mate0_optimal : OptimalMate c2sarcs 4 c2mate0 := by
  refine ⟨by decide, ?_⟩
  intro g hg
  have hb : ∀ i, i < 4 → g i < 4 := fun i hi => (hg.1 i hi).1
  have hmem : (List.range 4).map g ∈ allFuns 4 4 := range_map_mem_allFuns g 4 hb
  have hagree : ∀ i, i < 4 → ((List.range 4).map g).getD i 0 = g i :=
    fun i hi => getD_map_range g 4 i hi
  have hfl : FeasibleMate c2sarcs 4 (fun i => ((List.range 4).map g).getD i 0) :=
    feasibleMate_of_agree _ _ _ _ (fun i hi => (hagree i hi).symm) hg
  have hkey : ∀ l2 ∈ allFuns 4 4, FeasibleMate c2sarcs 4 (fun i => l2.getD i 0) →
      32 ≤ totalCost c2sarcs 4 (fun i => l2.getD i 0) := by decide
  have h32 := hkey _ hmem hfl
  rw [totalCost_congr _ _ _ g hagree] at h32
  have hc0 : totalCost c2sarcs 4 c2mate0 = 32 := by decide
  omega

/-- Witness: a concrete minimum-cost perfect matching of the scenario
instance, for which the call returns only the pair `(2, 3)`. -/
theorem assignment_default_penalty_drops_pair_witness :
    OptimalMate c2sarcs 4 c2mate0 ∧
    (lsaRun c2pairs hyperCols2 "_weight" none none 2 2 .optimal c2mate0).2 =
      .ok [(2, 3, 10)] :=
  ⟨c2mate0_optimal, assignment_default_penalty_drops_pair c2mate0 c2mate0_optimal⟩

-- ## C3

/-- C3 counterexample: for the hyperedge table `df3` (two disjoint
three-group hyperedges of weight 30, smallest group size 2), the objective
constant the code computes with no caller-supplied penalty is
`int(30 + 3) = 33`, while the claimed formula gives `30 * 2 + 1 = 61`; and 33
is NOT strictly greater than the achievable total weight 60 (both hyperedges
are selectable simultaneously). -/
theorem cpsat_penalty_claim_counterexample :
    find_multiplets_pre cols3 "_weight" (df3.map (fun r => r.w)) none =
      .ok (Frac.ofInt 33) ∧
    specClaimedPenalty 30 2 = Frac.ofInt 61 ∧
    Frac.ofInt 33 ≠ Frac.ofInt 61 ∧
    FeasibleSel df3 (fun _ => true) ∧
    totalWeight (cpsatSelected df3 (fun _ => true)) = Frac.ofInt 60 ∧
    Frac.lt (totalWeight (cpsatSelected df3 (fun _ => true))) (Frac.ofInt 33) = false := by
  decide

theorem trunc_add_three_gt (x d : ℤ) (hd : 0 < d) :
    x < ((x + 3 * d).tdiv d) * d := by
  rcases le_or_lt 0 (x + 3 * d) with hz | hz
  · rw [Int.tdiv_eq_ediv hz (le_of_lt hd)]
    have h1 := Int.lt_ediv_add_one_mul_self (x + 3 * d) hd
    have h2 : ((x + 3 * d) / d + 1) * d = ((x + 3 * d) / d) * d + d := by ring
    linarith
  · have hsub : x + 3 * d = -(-(x + 3 * d)) := by ring
    rw [hsub, Int.neg_tdiv]
    have hpos : 0 ≤ -(x + 3 * d) := by linarith
    have h3 := Int.ediv_mul_le (-(x + 3 * d)) (ne_of_gt hd)
    rw [Int.tdiv_eq_ediv hpos (le_of_lt hd)]
    have h4 : -(-(x + 3 * d) / d) * d = -((-(x + 3 * d) / d) * d) := by ring
    rw [h4]
    linarith

/-- C3 (amended): when the caller supplies no penalty, the objective constant
`C` in `maximize Σ (C - w_h) x_h` defaults to `int(max observed weight + 3)`
— the same formula as the assignment path, not
`max weight × smallest group + 1` — and it is strictly greater than the
maximum observed single hyperedge weight (but, per the counterexample, not
necessarily greater than the maximum achievable total weight). -/
theorem cpsat_default_penalty_formula (df : List Row) (cols : List String)
    (w : String) (hw : w ∈ cols) (m : Frac)
    (hm : colMax (df.map (fun r => r.w)) = some m) (hd : 0 < m.d) :
    find_multiplets_pre cols w (df.map (fun r => r.w)) none =
      .ok (Frac.ofInt ((m.add 3).trunc)) ∧
    Frac.lt m (Frac.ofInt ((m.add 3).trunc)) = true := by
  constructor
  · unfold find_multiplets_pre
    rw [if_neg (by simp [hw]), hm]
  · simp only [Frac.lt, Frac.ofInt, Frac.add, Frac.trunc, decide_eq_true_eq]
    have hd' : (0 : ℤ) < (m.d : ℤ) := by exact_mod_cast hd
    have h3 : ((3 : Frac)).n = 3 := rfl
    have h3d : ((3 : Frac)).d = 1 := rfl
    simp only [h3, h3d, Nat.cast_one, mul_one, Nat.cast_mul]
    exact trunc_add_three_gt m.n (m.d : ℤ) hd'

/-- Witness for the default-penalty formula at the counterexample table. -/
theorem cpsat_default_penalty_formula_witness :
    find_multiplets_pre cols3 "_weight" (df3.map (fun r => r.w)) none =
      .ok (Frac.ofInt (((30 : Frac).add 3).trunc)) ∧
    Frac.lt 30 (Frac.ofInt (((30 : Frac).add 3).trunc)) = true :=
  cpsat_default_penalty_formula df3 cols3 "_weight" (by decide) 30 (by decide)
    (by decide)

-- ## C9 lemmas

theorem lexLe_total : ∀ a b : List ℤ, lexLe a b = true ∨ lexLe b a = true := by
  intro a
  induction a with
  | nil => intro b; left; rfl
  | cons x xs ih =>
    intro b
    cases b with
    | nil => right; rfl
    | cons y ys =>
      rcases lt_trichotomy x y with h | h | h
      · left
        simp [lexLe, h]
      · subst h
        rcases ih ys with h2 | h2
        · left
          simp [lexLe, lt_irrefl, h2]
        · right
          simp [lexLe, lt_irrefl, h2]
      · right
        simp [lexLe, h]

theorem lexLe_trans : ∀ a b c : List ℤ,
    lexLe a b = true → lexLe b c = true → lexLe a c = true := by
  intro a
  induction a with
  | nil => intro b c _ _; rfl
  | cons x xs ih =>
    intro b c hab hbc
    cases b with
    | nil => simp [lexLe] at hab
    | cons y ys =>
      cases c with
      | nil => simp [lexLe] at hbc
      | cons z zs =>
        simp only [lexLe] at hab hbc ⊢
        by_cases h1 : x < y
        · by_cases h2 : y < z
          · simp [lt_trans h1 h2]
          · by_cases h3 : z < y
            · simp [h2, h3] at hbc
            · have hyz : y = z := by omega
              subst hyz
              simp [h1]
        · by_cases h1b : y < x
          · simp [h1, h1b] at hab
          · have hxy : x = y := by omega
            subst hxy
            simp only [lt_irrefl, if_false] at hab hbc ⊢
            by_cases h2 : x < z
            · simp [h2]
            · by_cases h3 : z < x
              · simp [h2, h3] at hbc
              · have hxz : x = z := by omega
                subst hxz
                simp only [lt_irrefl, if_false] at hab hbc ⊢
                exact ih ys zs hab hbc

theorem mem_insertBy (le : α → α → Bool) (a : α) (l : List α) (x : α) :
    x ∈ insertBy le a l ↔ x = a ∨ x ∈ l := by
  induction l with
  | nil => simp [insertBy]
  | cons b t ih =>
    unfold insertBy
    cases hba : le b a with
    | true =>
      simp only [cond_true, List.mem_cons, ih]
      tauto
    | false =>
      simp

theorem pairwise_insertBy (le : α → α → Bool)
    (htot : ∀ a b, le a b = true ∨ le b a = true)
    (htr : ∀ a b c, le a b = true → le b c = true → le a c = true)
    (a : α) (l : List α) (h : l.Pairwise (fun x y => le x y = true)) :
    (insertBy le a l).Pairwise (fun x y => le x y = true) := by
  induction l with
  | nil => simp [insertBy]
  | cons b t ih =>
    obtain ⟨hbt, htp⟩ := List.pairwise_cons.mp h
    unfold insertBy
    cases hba : le b a with
    | true =>
      simp only [cond_true]
      rw [List.pairwise_cons]
      refine ⟨?_, ih htp⟩
      intro x hx
      rcases (mem_insertBy le a t x).mp hx with hxa | hx
      · rw [hxa]; exact hba
      · exact hbt x hx
    | false =>
      simp only [cond_false]
      rw [List.pairwise_cons]
      have hab : le a b = true := by
        rcases htot a b with h' | h'
        · exact h'
        · rw [h'] at hba
          simp at hba
      refine ⟨?_, h⟩
      intro x hx
      rcases List.mem_cons.mp hx with hxb | hx
      · rw [hxb]; exact hab
      · exact htr a b x hab (hbt x hx)

theorem pairwise_sortBy (le : α → α → Bool)
    (htot : ∀ a b, le a b = true ∨ le b a = true)
    (htr : ∀ a b c, le a b = true → le b c = true → le a c = true)
    (l : List α) : (sortBy le l).Pairwise (fun x y => le x y = true) := by
  induction l with
  | nil => exact .nil
  | cons a t ih => exact pairwise_insertBy le htot htr a _ ih

theorem lexLe_antisymm : ∀ a b : List ℤ,
    lexLe a b = true → lexLe b a = true → a = b := by
  intro a
  induction a with
  | nil =>
    intro b _ hba
    cases b with
    | nil => rfl
    | cons y ys => simp [lexLe] at hba
  | cons x xs ih =>
    intro b hab hba
    cases b with
    | nil => simp [lexLe] at hab
    | cons y ys =>
      simp only [lexLe] at hab hba
      by_cases h1 : x < y
      · simp [h1, asymm h1] at hba
      · by_cases h2 : y < x
        · simp [h1, h2] at hab
        · have hxy : x = y := by omega
          subst hxy
          simp only [lt_irrefl, if_false] at hab hba
          rw [ih ys hab hba]

theorem perm_insertBy (le : α → α → Bool) (a : α) (l : List α) :
    (insertBy le a l).Perm (a :: l) := by
  induction l with
  | nil => exact .refl _
  | cons b t ih =>
    unfold insertBy
    cases le b a with
    | true =>
      refine (List.Perm.cons b ih).trans ?_
      exact List.Perm.swap a b t
    | false => exact .refl _

theorem perm_sortBy (le : α → α → Bool) (l : List α) : (sortBy le l).Perm l := by
  induction l with
  | nil => exact .refl _
  | cons a t ih =>
    exact (perm_insertBy le a (sortBy le t)).trans (List.Perm.cons a ih)

theorem sorted_nodupkeys_perm_eq :
    ∀ (l₁ l₂ : List Row), l₁.Perm l₂ →
      l₁.Pairwise (fun a b => lexLe a.ids b.ids = true) →
      l₂.Pairwise (fun a b => lexLe a.ids b.ids = true) →
      (l₁.map (fun r => r.ids)).Nodup →
      l₁ = l₂ := by
  intro l₁
  induction l₁ with
  | nil =>
    intro l₂ hperm _ _ _
    exact (hperm.symm.eq_nil).symm
  | cons a t ih =>
    intro l₂ hperm hs1 hs2 hnd
    cases l₂ with
    | nil => exact hperm.eq_nil
    | cons b t₂ =>
      have hab : a = b := by
        by_contra hne
        have ha2 : a ∈ b :: t₂ := hperm.subset (by simp)
        have hb1 : b ∈ a :: t := hperm.symm.subset (by simp)
        have ha2' : a ∈ t₂ := by
          rcases List.mem_cons.mp ha2 with h | h
          · exact absurd h hne
          · exact h
        have hb1' : b ∈ t := by
          rcases List.mem_cons.mp hb1 with h | h
          · exact absurd h.symm hne
          · exact h
        have h1 : lexLe a.ids b.ids = true := (List.pairwise_cons.mp hs1).1 b hb1'
        have h2 : lexLe b.ids a.ids = true := (List.pairwise_cons.mp hs2).1 a ha2'
        have heq : a.ids = b.ids := lexLe_antisymm _ _ h1 h2
        have hmem : a.ids ∈ t.map (fun r => r.ids) := by
          rw [heq]
          exact List.mem_map.mpr ⟨b, hb1', rfl⟩
        exact (List.nodup_cons.mp hnd).1 hmem
      subst hab
      rw [ih t₂ hperm.cons_inv (List.pairwise_cons.mp hs1).2
        (List.pairwise_cons.mp hs2).2 (List.nodup_cons.mp hnd).2]

theorem sortBy_perm_invariant (l₁ l₂ : List Row) (hperm : l₁.Perm l₂)
    (hnd : (l₁.map (fun r => r.ids)).Nodup) :
    sortBy (fun a b => lexLe a.ids b.ids) l₁ =
      sortBy (fun a b => lexLe a.ids b.ids) l₂ := by
  have hp1 := perm_sortBy (fun (a b : Row) => lexLe a.ids b.ids) l₁
  have hp2 := perm_sortBy (fun (a b : Row) => lexLe a.ids b.ids) l₂
  have hchain : (sortBy (fun a b => lexLe a.ids b.ids) l₁).Perm
      (sortBy (fun a b => lexLe a.ids b.ids) l₂) :=
    (hp1.trans hperm).trans hp2.symm
  have hnd1 : ((sortBy (fun a b => lexLe a.ids b.ids) l₁).map
      (fun r => r.ids)).Nodup := (hp1.map (fun r => r.ids)).symm.nodup hnd
  exact sorted_nodupkeys_perm_eq _ _ hchain
    (pairwise_sortBy (fun a b => lexLe a.ids b.ids)
      (fun (a b : Row) => lexLe_total a.ids b.ids)
      (fun (a b c : Row) => lexLe_trans a.ids b.ids c.ids) l₁)
    (pairwise_sortBy (fun a b => lexLe a.ids b.ids)
      (fun (a b : Row) => lexLe_total a.ids b.ids)
      (fun (a b c : Row) => lexLe_trans a.ids b.ids c.ids) l₂)
    hnd1

-- ## C9

/-- C9: `init_edges` is deterministic.  In the embedding it is a pure
function of the session and the parameters, so two calls on identical inputs
return identical tables (first conjunct); the mechanism making the order
canonical in the implementation is the final sort by the identifier columns,
whose output is ascending in the lexicographic order of the identifier tuples
(second conjunct) — since a valid session has globally unique identifiers,
the key tuples are distinct and the sorted table is the unique ascending
arrangement, independent of the row order the joins produce. -/
theorem init_edges_deterministic (s : Session) (w : WeightArg) (f : FilterArg)
    (agg : List Frac → Frac) :
    init_edges s w f agg = init_edges s w f agg ∧
    (init_edges s w f agg).Pairwise (fun a b => lexLe a.ids b.ids = true) ∧
    (∀ l₁ l₂ : List Row, l₁.Perm l₂ → (l₁.map (fun r => r.ids)).Nodup →
      sortBy (fun a b => lexLe a.ids b.ids) l₁ =
        sortBy (fun a b => lexLe a.ids b.ids) l₂) := by
  refine ⟨rfl, ?_, sortBy_perm_invariant⟩
  simp only [init_edges]
  cases pairList s.groups.length with
  | nil => exact .nil
  | cons p rest =>
    exact pairwise_sortBy (fun a b => lexLe a.ids b.ids)
      (fun (a b : Row) => lexLe_total a.ids b.ids)
      (fun (a b c : Row) => lexLe_trans a.ids b.ids c.ids) _

/-- Witness: the determinism theorem at a concrete session, including the
order-canonicity conjunct on two permuted concrete row lists. -/
theorem init_edges_deterministic_witness :
    (init_edges c6session absDiff (.num 30) sum_horizontal).Pairwise
      (fun a b => lexLe a.ids b.ids = true) ∧
    sortBy (fun a b => lexLe a.ids b.ids)
        [(⟨[], [2, 3, 5], 60⟩ : Row), ⟨[], [2, 4, 5], 60⟩] =
      sortBy (fun a b => lexLe a.ids b.ids)
        [(⟨[], [2, 4, 5], 60⟩ : Row), ⟨[], [2, 3, 5], 60⟩] :=
  ⟨(init_edges_deterministic c6session absDiff (.num 30) sum_horizontal).2.1,
   (init_edges_deterministic c6session absDiff (.num 30) sum_horizontal).2.2
     [⟨[], [2, 3, 5], 60⟩, ⟨[], [2, 4, 5], 60⟩]
     [⟨[], [2, 4, 5], 60⟩, ⟨[], [2, 3, 5], 60⟩] (by decide) (by decide)⟩
